import Mathlib

/-!
Shallow embedding of `pyannote/audio/pipeline/simple.py`.

The file models the deterministic core of the two diarization pipelines
(`SimpleDiarization` and `DiscreteDiarization`): the segment-extension
fallback of `get_embedding`, the log-probability correction and score
caching, the tiny-segment filter, the degenerate clustering branches, the
short-segment nearest-neighbour reassignment, the frame-level control flow
around speech/clean/noisy frame index sets, the overlap reassignment step,
and the timeline crop/gaps algebra used to split speech into clean and
noisy parts.  Machine floats are modelled by rationals; external neural
models and the clustering backend are abstract function parameters, exactly
as they are opaque callables in the source.
-/

namespace PyannoteSimple

/-- A time interval, mirroring `pyannote.core.Segment` as used by the
pipeline: a pair of rational endpoints. -/
structure Seg where
  start : ℚ
  stop : ℚ
  deriving DecidableEq

/-- Midpoint of a segment, mirroring `Segment.middle`. -/
def Seg.middle (s : Seg) : ℚ := (s.start + s.stop) / 2

/-- Duration of a segment, mirroring `Segment.duration`. -/
def Seg.duration (s : Seg) : ℚ := s.stop - s.start

/-- The fixed minimum technical duration of the embedding model
(`MIN_DURATION = 0.157` in `SimpleDiarization.get_embedding`). -/
def MIN_DURATION : ℚ := 157 / 1000

/-- The extended segment computed inside the `except RuntimeError` branch of
`SimpleDiarization.get_embedding` (source lines 137-148): if the midpoint is
too close to the left edge take `[0, MIN_DURATION]`, if too close to the
right edge take `[duration - MIN_DURATION, duration]`, otherwise centre a
`MIN_DURATION`-long window on the midpoint. -/
def extendedSegment (fileDuration : ℚ) (segment : Seg) : Seg :=
  if segment.middle - (1 / 2) * MIN_DURATION < 0 then
    ⟨0, MIN_DURATION⟩
  else if segment.middle + (1 / 2) * MIN_DURATION > fileDuration then
    ⟨fileDuration - MIN_DURATION, fileDuration⟩
  else
    ⟨segment.middle - (1 / 2) * MIN_DURATION,
      segment.middle + (1 / 2) * MIN_DURATION⟩

/-- Model of `SimpleDiarization.get_embedding` (source lines 122-151).  The
embedding model's `crop` is an abstract fallible call: `Except E (List V)`
stands for either a raised too-short `RuntimeError` (the only exception the
source catches) or the returned array of frame embeddings.  On a first
failure the segment is extended and `crop` is called once more; that second
call sits outside any handler, so its failure propagates unchanged.
`meanF` models `np.mean(embeddings, axis=0)`. -/
def get_embedding {E V W : Type} (fileDuration : ℚ)
    (crop : Seg → Except E (List V)) (meanF : List V → W)
    (segment : Seg) : Except E W :=
  match crop segment with
  | Except.ok embs => Except.ok (meanF embs)
  | Except.error _ =>
      match crop (extendedSegment fileDuration segment) with
      | Except.ok embs => Except.ok (meanF embs)
      | Except.error e => Except.error e

/-- The tiny-segment filter of `SimpleDiarization.__call__` (source line
185): `seg = [s for s in seg if s.duration > min(0.1, self.seg_min_duration)]`. -/
def filterTiny (seg_min_duration : ℚ) (seg : List Seg) : List Seg :=
  seg.filter (fun s => decide (s.duration > min 0.1 seg_min_duration))

/-- Mean of a score curve, mirroring `np.nanmean` on a NaN-free array
(rationals have no NaN; the empty curve yields `0/0 = 0` here, and NaN in
numpy — in both cases the `< 0` test below is false). -/
def nanmean (l : List ℚ) : ℚ := l.sum / l.length

/-- Model of the score-fetching block that appears for each detector in
both orchestrators (source lines 157-164, 169-176, 368-374, 396-402):
if the per-recording cache already holds a curve it is used as-is and the
cache is left unchanged; otherwise the freshly computed curve is
exponentiated (by the abstract `expF`, standing for `np.exp`) exactly when
its `nanmean` is negative, and the resulting curve is both used and stored
in the cache.  Returns `(values used, cache content afterwards)`. -/
def scoresStep (expF : ℚ → ℚ) (cached : Option (List ℚ))
    (computed : List ℚ) : List ℚ × List ℚ :=
  match cached with
  | some s => (s, s)
  | none =>
      let s := if nanmean computed < 0 then computed.map expF else computed
      (s, s)

/-- A concrete stand-in for `np.exp` on rationals, used only to instantiate
theorems at explicit inputs: positive, at most `1` on nonpositive inputs. -/
def expDemo (x : ℚ) : ℚ := if x ≤ 0 then 1 / (1 - x) else 1 + x

/-- First index of a minimal element, mirroring `np.argmin` along an axis
(numpy documents that the first occurrence of the minimum is returned). -/
def argmin : List ℚ → Nat
  | [] => 0
  | [_] => 0
  | x :: y :: xs =>
      if (y :: xs).getD (argmin (y :: xs)) 0 < x then argmin (y :: xs) + 1 else 0

/-- The short-segment cluster assignment of `SimpleDiarization.__call__`
(source lines 230-233):
`cluster_shrt = cluster_long[argmin(cdist(emb_long, emb_shrt, metric), axis=0)]`.
`dist` abstracts the `cdist` metric (`"cosine"` in the pipeline): entry
`(i, j)` of the distance matrix is `dist (emb_long i) (emb_shrt j)` and the
argmin runs over the long index `i` for each fixed short index `j`. -/
def assignShortClusters {V : Type} (dist : V → V → ℚ) (embLong : List V)
    (clusterLong : List Nat) (embShrt : List V) : List Nat :=
  embShrt.map
    (fun q => clusterLong.getD (argmin (embLong.map (fun r => dist r q))) 0)

/-- Model of the clustering tail of `SimpleDiarization.__call__` (source
lines 187-240), from the filtered candidate list `seg` onwards.  Labels are
modelled as naturals; the three generator conventions of the source map to:
`"string"` generator → one fresh label per segment (its index), the
constant generator `iter(lambda: "A", None)` → label `0` everywhere, and
`iter(cluster_long)` / `iter(cluster_shrt)` → the cluster arrays, zipped
with the segments in order.  `embedFn` abstracts `get_embedding`, `dist`
the `cdist` metric, and `clusterFn` the `pool`+`fcluster` hierarchical
clustering call. -/
def simpleAssign {V : Type} (emb_duration : ℚ) (embedFn : Seg → V)
    (dist : V → V → ℚ) (clusterFn : List V → List Nat)
    (seg : List Seg) : List (Seg × Nat) :=
  let seg_long := seg.filter (fun s => decide (emb_duration ≤ s.duration))
  if seg_long.length = 0 then
    ((List.range seg.length).zip seg).map (fun p => (p.2, p.1))
  else if seg_long.length = 1 then
    seg.map (fun s => (s, 0))
  else
    let emb_long := seg_long.map embedFn
    let cluster_long := clusterFn emb_long
    let seg_shrt := seg.filter (fun s => decide (s.duration < emb_duration))
    if seg_shrt.length = 0 then
      seg_long.zip cluster_long
    else
      seg_long.zip cluster_long ++
        seg_shrt.zip
          (assignShortClusters dist emb_long cluster_long (seg_shrt.map embedFn))

/-- A concrete fallible crop used only to instantiate theorems with
hypotheses at explicit inputs: it fails (returning the duration as the
error payload) on any segment shorter than `MIN_DURATION`. -/
def cropDemo (s : Seg) : Except ℚ (List ℚ) :=
  if s.duration < MIN_DURATION then Except.error s.duration
  else Except.ok [s.start]

/-- Indices of the `true` entries of a boolean frame mask, mirroring
`np.where(mask)[0]` on a 0/1 array: ascending indices of nonzero frames. -/
def trueIndices (mask : List Bool) : List Nat :=
  (mask.zip (List.range mask.length)).filterMap
    (fun p => if p.1 then some p.2 else none)

/-- The discretized per-frame state of `DiscreteDiarization.__call__`:
`speechD` models `speech_discrete` (the rasterized speech mask over the
embedding frame grid) and `ovlD` models `overlap_discrete` when an overlap
detector is configured (`self.ovl is not None`), `none` otherwise. -/
structure DiscreteState where
  speechD : List Bool
  ovlD : Option (List Bool)
  deriving DecidableEq

/-- `speech_indices = np.where(speech_discrete)[0]` (source line 388). -/
def DiscreteState.speechIndices (st : DiscreteState) : List Nat :=
  trueIndices st.speechD

/-- `clean_speech_indices = np.where(speech_discrete * (1 - overlap_discrete))[0]`
(source line 423), defined when an overlap detector is configured. -/
def DiscreteState.cleanIndices (st : DiscreteState) (ovlD : List Bool) : List Nat :=
  trueIndices (st.speechD.zipWith (fun s o => s && !o) ovlD)

/-- `noisy_speech_indices = np.where(speech_discrete * overlap_discrete)[0]`
(source line 424). -/
def DiscreteState.noisyIndices (st : DiscreteState) (ovlD : List Bool) : List Nat :=
  trueIndices (st.speechD.zipWith (fun s o => s && o) ovlD)

/-- The set of frame indices whose embeddings the pipeline submits to
hierarchical clustering (source line 429):
`indices = speech_indices if self.ovl is None else clean_speech_indices`. -/
def DiscreteState.clusterTarget (st : DiscreteState) : List Nat :=
  match st.ovlD with
  | none => st.speechIndices
  | some o => st.cleanIndices o

/-- Outcome of the early part of `DiscreteDiarization.__call__` (source
lines 388-430): either the early empty-`Annotation` return of lines
390-391, or the pipeline proceeds and calls `pool` on the embeddings at the
listed frame indices. -/
inductive DiscreteStep where
  | emptyResult : DiscreteStep
  | clusterCall : List Nat → DiscreteStep
  deriving DecidableEq

/-- Control flow of `DiscreteDiarization.__call__` from the speech mask to
the clustering call: return an empty result iff `speech_indices` is empty
(source line 390 tests `len(speech_indices) == 0`), otherwise cluster the
frames of `clusterTarget` (clean-speech frames when overlap detection is
configured, all speech frames otherwise). -/
def discreteCallStep (st : DiscreteState) : DiscreteStep :=
  if st.speechIndices = [] then DiscreteStep.emptyResult
  else DiscreteStep.clusterCall st.clusterTarget

/-- Stable insertion into a distance-sorted list of (distance, index)
pairs: on ties the inserted (earlier) element stays first. -/
def insertByDist (p : ℚ × Nat) : List (ℚ × Nat) → List (ℚ × Nat)
  | [] => [p]
  | q :: rest => if p.1 ≤ q.1 then p :: q :: rest else q :: insertByDist p rest

/-- Stable sort of (distance, index) pairs by distance. -/
def sortByDist : List (ℚ × Nat) → List (ℚ × Nat)
  | [] => []
  | p :: rest => insertByDist p (sortByDist rest)

/-- Indices of the `k` smallest entries of a distance column.  Models one
column of `np.argpartition(distance, kth, axis=0)[:kth]` as used at source
lines 457-459: the elements strictly before position `kth` of an
argpartition are the `kth` smallest, in some unspecified order; the model
fixes that order as a stable sort, one of the permitted outcomes, which
leaves the returned index set (and hence the number of labels per frame)
unchanged. -/
def kSmallestIndices (k : Nat) (col : List ℚ) : List Nat :=
  ((sortByDist (col.zip (List.range col.length))).map (fun p => p.2)).take k

/-- The overlap-reassignment index computation of
`DiscreteDiarization.__call__` (source lines 456-459).  `distCols` holds,
for each noisy-speech frame, its column of cosine distances to the
`numClusters` cluster centroids (the transpose of the `cdist` result).
Modelled from numpy's contract for `np.argpartition`: the call raises
(`none` here) unless the `kth` argument is strictly smaller than the length
of the partitioned axis, which has `numClusters` entries — so
`kth = min(2, num_clusters)` is out of bounds whenever `num_clusters ≤ 2`. -/
def overlapAssignLabels (numClusters : Nat) (distCols : List (List ℚ)) :
    Option (List (List Nat)) :=
  if min 2 numClusters < numClusters then
    some (distCols.map (fun col => kSmallestIndices (min 2 numClusters) col))
  else none

/-- Modelled from the spec: interior membership of a time point in a
timeline's support (`pyannote.core.Timeline` is an external collaborator;
the spec's SegmentAlgebra drops zero-duration intervals, so support
membership is membership in some interval's open interior). -/
def memT (t : ℚ) (tl : List (ℚ × ℚ)) : Prop :=
  ∃ p ∈ tl, p.1 < t ∧ t < p.2

/-- Modelled from the spec: `crop(a, support, mode="intersection")`
truncates partially-overlapping intervals to their overlapping portions —
the pairwise intersections of positive length. -/
def cropT (a support : List (ℚ × ℚ)) : List (ℚ × ℚ) :=
  a.flatMap (fun s => support.filterMap (fun p =>
    if max s.1 p.1 < min s.2 p.2 then some (max s.1 p.1, min s.2 p.2)
    else none))

/-- Modelled from the spec: `gaps(support)` is the complement of a
timeline's intervals within the support `[lo, hi]`, computed here for a
sorted, disjoint timeline (the Binarizer output invariant), as used at
source line 409 with `support = extent = Segment(0, duration)`. -/
def gapsT (lo hi : ℚ) : List (ℚ × ℚ) → List (ℚ × ℚ)
  | [] => [(lo, hi)]
  | (s, e) :: rest => (lo, s) :: gapsT e hi rest

/-- Sorted disjointness of a timeline whose first interval starts no
earlier than `pos`: the Binarizer's output intervals are disjoint and
time-ordered, each with `start ≤ end`. -/
def ChainedFrom (pos : ℚ) : List (ℚ × ℚ) → Prop
  | [] => True
  | (s, e) :: rest => pos ≤ s ∧ s ≤ e ∧ ChainedFrom e rest

end PyannoteSimple

namespace PyannoteSimple

/-- C3: the retried segment after a first too-short failure is exactly the
one described by the spec: `[0, 0.157]` when the midpoint is within
`0.0785` of the left edge, `[D - 0.157, D]` when (otherwise) within
`0.0785` of the right edge, and the `157`ms window centred on the midpoint
otherwise; in particular a 50ms interval centred at 5.0s in a 10s recording
extends to exactly `[4.9215, 5.0785]`. -/
theorem C3_extended_segment (D : ℚ) (s : Seg) :
    (s.middle - 0.0785 < 0 → extendedSegment D s = ⟨0, 0.157⟩) ∧
    (¬ s.middle - 0.0785 < 0 → s.middle + 0.0785 > D →
      extendedSegment D s = ⟨D - 0.157, D⟩) ∧
    (¬ s.middle - 0.0785 < 0 → ¬ s.middle + 0.0785 > D →
      extendedSegment D s = ⟨s.middle - 0.0785, s.middle + 0.0785⟩) ∧
    extendedSegment 10 ⟨4.975, 5.025⟩ = ⟨4.9215, 5.0785⟩ := by
  have hmd : (1 / 2 : ℚ) * MIN_DURATION = 0.0785 := by
    norm_num [MIN_DURATION]
  refine ⟨?_, ?_, ?_, ?_⟩
  · intro h
    simp only [extendedSegment, hmd]
    rw [if_pos h]
    norm_num [MIN_DURATION]
  · intro h1 h2
    simp only [extendedSegment, hmd]
    rw [if_neg h1, if_pos h2]
    norm_num [MIN_DURATION]
  · intro h1 h2
    simp only [extendedSegment, hmd]
    rw [if_neg h1, if_neg h2]
  · simp only [extendedSegment, hmd, Seg.middle]
    norm_num

/-- Witness for C3: all three branches exercised at concrete inputs. -/
theorem C3_extended_segment_witness :
    ((Seg.middle ⟨0, 0.05⟩ - 0.0785 < 0) ∧
      extendedSegment 10 ⟨0, 0.05⟩ = ⟨0, 0.157⟩) ∧
    ((¬ Seg.middle ⟨9.95, 10⟩ - 0.0785 < 0) ∧
      (Seg.middle ⟨9.95, 10⟩ + 0.0785 > 10) ∧
      extendedSegment 10 ⟨9.95, 10⟩ = ⟨10 - 0.157, 10⟩) ∧
    ((¬ Seg.middle ⟨4.975, 5.025⟩ - 0.0785 < 0) ∧
      (¬ Seg.middle ⟨4.975, 5.025⟩ + 0.0785 > 10) ∧
      extendedSegment 10 ⟨4.975, 5.025⟩ =
        ⟨Seg.middle ⟨4.975, 5.025⟩ - 0.0785, Seg.middle ⟨4.975, 5.025⟩ + 0.0785⟩) := by
  have h1 : Seg.middle ⟨0, 0.05⟩ - 0.0785 < 0 := by norm_num [Seg.middle]
  have h2a : ¬ Seg.middle ⟨9.95, 10⟩ - 0.0785 < 0 := by norm_num [Seg.middle]
  have h2b : Seg.middle ⟨9.95, 10⟩ + 0.0785 > 10 := by norm_num [Seg.middle]
  have h3a : ¬ Seg.middle ⟨4.975, 5.025⟩ - 0.0785 < 0 := by norm_num [Seg.middle]
  have h3b : ¬ Seg.middle ⟨4.975, 5.025⟩ + 0.0785 > 10 := by norm_num [Seg.middle]
  exact ⟨⟨h1, (C3_extended_segment 10 ⟨0, 0.05⟩).1 h1⟩,
    ⟨h2a, h2b, (C3_extended_segment 10 ⟨9.95, 10⟩).2.1 h2a h2b⟩,
    ⟨h3a, h3b, (C3_extended_segment 10 ⟨4.975, 5.025⟩).2.2.1 h3a h3b⟩⟩

/-- C8: embedding extraction retries exactly once.  If the first `crop`
fails, the extended segment is cropped; a success there yields the mean of
that second result, and a second failure propagates its error unchanged to
the caller (no third attempt exists in the code path). -/
theorem C8_retry_once {E V W : Type} (fileDuration : ℚ)
    (crop : Seg → Except E (List V)) (meanF : List V → W) (segment : Seg)
    (e₁ : E) (h₁ : crop segment = Except.error e₁) :
    (∀ v, crop (extendedSegment fileDuration segment) = Except.ok v →
      get_embedding fileDuration crop meanF segment = Except.ok (meanF v)) ∧
    (∀ e₂, crop (extendedSegment fileDuration segment) = Except.error e₂ →
      get_embedding fileDuration crop meanF segment = Except.error e₂) := by
  constructor
  · intro v hv
    simp [get_embedding, h₁, hv]
  · intro e₂ he
    simp [get_embedding, h₁, he]

/-- Witness for C8: a concrete crop that fails on every segment shorter
than `MIN_DURATION`; the first call fails, the retry fails, and the
pipeline-visible result is the second error. -/
theorem C8_retry_once_witness :
    (cropDemo ⟨0, 0.05⟩ = Except.error 0.05) ∧
    (∀ e₂, cropDemo (extendedSegment 0.1 ⟨0, 0.05⟩) = Except.error e₂ →
      get_embedding 0.1 cropDemo (fun l => l.sum) ⟨0, 0.05⟩ = Except.error e₂) := by
  have h₁ : cropDemo ⟨0, 0.05⟩ = Except.error 0.05 := by
    norm_num [cropDemo, Seg.duration, MIN_DURATION]
  exact ⟨h₁, (C8_retry_once 0.1 cropDemo (fun l => l.sum) ⟨0, 0.05⟩ 0.05 h₁).2⟩

/-- C9: a segment survives the post-split filter iff its duration strictly
exceeds `min(0.1, seg_min_duration)`; with any `seg_min_duration ≥ 0` a
zero-duration segment is always dropped. -/
theorem C9_tiny_filter (m : ℚ) (hm : 0 ≤ m) (seg : List Seg) (s : Seg) :
    (s ∈ filterTiny m seg ↔ s ∈ seg ∧ s.duration > min 0.1 m) ∧
    (s.duration = 0 → s ∉ filterTiny m seg) := by
  have hmem : s ∈ filterTiny m seg ↔ s ∈ seg ∧ s.duration > min 0.1 m := by
    simp [filterTiny, List.mem_filter]
  refine ⟨hmem, ?_⟩
  intro h0 hs
  have := (hmem.mp hs).2
  rw [h0] at this
  have hmin : (0 : ℚ) ≤ min 0.1 m := le_min (by norm_num) hm
  linarith

/-- Witness for C9: with `seg_min_duration = 0.05` the `0.2`-long segment is
kept and the zero-duration segment is dropped. -/
theorem C9_tiny_filter_witness :
    (0 : ℚ) ≤ 0.05 ∧
    (Seg.mk 0 0.2 ∈ filterTiny 0.05 [⟨0, 0.2⟩, ⟨1, 1⟩] ↔
      Seg.mk 0 0.2 ∈ [Seg.mk 0 0.2, ⟨1, 1⟩] ∧
        Seg.duration ⟨0, 0.2⟩ > min 0.1 0.05) ∧
    Seg.mk 1 1 ∉ filterTiny 0.05 [⟨0, 0.2⟩, ⟨1, 1⟩] := by
  have hm : (0 : ℚ) ≤ 0.05 := by norm_num
  refine ⟨hm, (C9_tiny_filter 0.05 hm [⟨0, 0.2⟩, ⟨1, 1⟩] ⟨0, 0.2⟩).1, ?_⟩
  exact (C9_tiny_filter 0.05 hm [⟨0, 0.2⟩, ⟨1, 1⟩] ⟨1, 1⟩).2
    (by norm_num [Seg.duration])

/-- C4 counterexample: a per-recording cache pre-populated with a
negative-mean curve (here `[-1]`) is used exactly as stored — the
orchestrator performs no exponentiation and no `[0,1]` check on the cache
path, so the values actually used are not `exp`-corrected and lie outside
`[0,1]`, refuting the claim for cache-hit invocations. -/
theorem C4_log_correction_cex :
    nanmean [(-1 : ℚ)] < 0 ∧
    (scoresStep expDemo (some [(-1 : ℚ)]) []).1 = [(-1 : ℚ)] ∧
    (scoresStep expDemo (some [(-1 : ℚ)]) []).1 ≠ List.map expDemo [(-1 : ℚ)] ∧
    ¬ (∀ v ∈ (scoresStep expDemo (some [(-1 : ℚ)]) []).1, 0 ≤ v ∧ v ≤ 1) := by
  refine ⟨by norm_num [nanmean], rfl, ?_, ?_⟩
  · simp only [scoresStep, List.map]
    norm_num [expDemo]
  · intro h
    have := (h (-1) (by simp [scoresStep])).1
    linarith

/-- C4 amended: on a cache-miss invocation whose fresh curve has negative
mean and genuinely holds log-probabilities (all values `≤ 0`), the curve is
exponentiated exactly once before use, the used values are probabilities in
`[0,1]`, and the corrected curve is what gets cached; on a cache-hit
invocation the cached curve is used as-is, with no correction of any kind. -/
theorem C4_log_correction (expF : ℚ → ℚ) (computed cachedCurve : List ℚ)
    (hexp : ∀ x, x ≤ 0 → 0 ≤ expF x ∧ expF x ≤ 1)
    (hneg : nanmean computed < 0) (hlog : ∀ v ∈ computed, v ≤ 0) :
    (scoresStep expF none computed).1 = computed.map expF ∧
    (∀ v ∈ (scoresStep expF none computed).1, 0 ≤ v ∧ v ≤ 1) ∧
    (scoresStep expF none computed).2 = (scoresStep expF none computed).1 ∧
    scoresStep expF (some cachedCurve) computed = (cachedCurve, cachedCurve) := by
  have h1 : (scoresStep expF none computed).1 = computed.map expF := by
    simp [scoresStep, if_pos hneg]
  refine ⟨h1, ?_, ?_, rfl⟩
  · intro v hv
    rw [h1] at hv
    obtain ⟨x, hx, rfl⟩ := List.mem_map.mp hv
    exact hexp x (hlog x hx)
  · simp [scoresStep]

/-- Witness for C4 amended: fresh curve `[-3]`, cached curve `[-2]`. -/
theorem C4_log_correction_witness :
    nanmean [(-3 : ℚ)] < 0 ∧
    (scoresStep expDemo none [(-3 : ℚ)]).1 = List.map expDemo [(-3 : ℚ)] ∧
    (∀ v ∈ (scoresStep expDemo none [(-3 : ℚ)]).1, 0 ≤ v ∧ v ≤ 1) ∧
    scoresStep expDemo (some [(-2 : ℚ)]) [(-3 : ℚ)] = ([(-2 : ℚ)], [(-2 : ℚ)]) := by
  have hexp : ∀ x : ℚ, x ≤ 0 → 0 ≤ expDemo x ∧ expDemo x ≤ 1 := by
    intro x hx
    rw [expDemo, if_pos hx]
    have hpos : (0 : ℚ) < 1 - x := by linarith
    constructor
    · exact le_of_lt (div_pos one_pos hpos)
    · rw [div_le_one hpos]
      linarith
  have hneg : nanmean [(-3 : ℚ)] < 0 := by norm_num [nanmean]
  have hlog : ∀ v ∈ [(-3 : ℚ)], v ≤ 0 := by norm_num
  obtain ⟨h1, h2, _, h4⟩ := C4_log_correction expDemo [(-3 : ℚ)] [(-2 : ℚ)] hexp hneg hlog
  exact ⟨hneg, h1, h2, h4⟩

theorem argmin_cons_cons (x y : ℚ) (ys : List ℚ) :
    argmin (x :: y :: ys) =
      if (y :: ys).getD (argmin (y :: ys)) 0 < x then argmin (y :: ys) + 1
      else 0 :=
  rfl

theorem argmin_lt_length (l : List ℚ) (h : l ≠ []) : argmin l < l.length := by
  induction l with
  | nil => exact absurd rfl h
  | cons x xs ih =>
    cases xs with
    | nil => simp [argmin]
    | cons y ys =>
      have hlt := ih (by simp)
      rw [argmin_cons_cons]
      by_cases hc : (y :: ys).getD (argmin (y :: ys)) 0 < x
      · rw [if_pos hc, List.length_cons]
        omega
      · rw [if_neg hc, List.length_cons]
        omega

theorem argmin_le (l : List ℚ) (k : Nat) (hk : k < l.length) :
    l.getD (argmin l) 0 ≤ l.getD k 0 := by
  induction l generalizing k with
  | nil => simp at hk
  | cons x xs ih =>
    cases xs with
    | nil =>
      cases k with
      | zero => simp [argmin]
      | succ k' => simp at hk
    | cons y ys =>
      rw [argmin_cons_cons]
      by_cases hc : (y :: ys).getD (argmin (y :: ys)) 0 < x
      · rw [if_pos hc, List.getD_cons_succ]
        cases k with
        | zero => simpa using le_of_lt hc
        | succ k' =>
          rw [List.getD_cons_succ]
          exact ih k' (by simpa using hk)
      · rw [if_neg hc, List.getD_cons_zero]
        cases k with
        | zero => simp
        | succ k' =>
          rw [List.getD_cons_succ]
          have hx : x ≤ (y :: ys).getD (argmin (y :: ys)) 0 := not_lt.mp hc
          exact le_trans hx (ih k' (by simpa using hk))

theorem argmin_first (l : List ℚ) (k : Nat) (hk : k < argmin l) :
    l.getD (argmin l) 0 < l.getD k 0 := by
  induction l generalizing k with
  | nil => simp [argmin] at hk
  | cons x xs ih =>
    cases xs with
    | nil => simp [argmin] at hk
    | cons y ys =>
      rw [argmin_cons_cons] at hk ⊢
      by_cases hc : (y :: ys).getD (argmin (y :: ys)) 0 < x
      · rw [if_pos hc] at hk ⊢
        rw [List.getD_cons_succ]
        cases k with
        | zero => simpa using hc
        | succ k' =>
          rw [List.getD_cons_succ]
          exact ih k' (by omega)
      · rw [if_neg hc] at hk
        exact absurd hk k.not_lt_zero

/-- C5: the label assigned to each short segment is the label of a long
segment whose raw embedding minimises the metric distance to the short
segment's embedding (no larger than the distance to every other long
embedding), and every strictly earlier long index has strictly larger
distance — numpy's argmin resolves ties to the lowest index.  Stated for an
arbitrary metric `dist`, hence in particular for the cosine metric the
pipeline passes to `cdist`. -/
theorem C5_short_nearest {V : Type} [Inhabited V] (dist : V → V → ℚ)
    (embLong : List V) (clusterLong : List Nat) (embShrt : List V)
    (hne : embLong ≠ []) (j : Nat) (hj : j < embShrt.length) :
    ∃ i, ∃ hi : i < embLong.length,
      (assignShortClusters dist embLong clusterLong embShrt).getD j 0 =
        clusterLong.getD i 0 ∧
      (∀ k, (hk : k < embLong.length) →
        dist embLong[i] embShrt[j] ≤ dist embLong[k] embShrt[j]) ∧
      (∀ k, (hk : k < embLong.length) → k < i →
        dist embLong[i] embShrt[j] < dist embLong[k] embShrt[j]) := by
  have hq : j < embShrt.length := hj
  set q := embShrt[j] with hqdef
  set dl := embLong.map (fun r => dist r q) with hdl
  have hdlne : dl ≠ [] := by
    simp [hdl]
    exact hne
  have hdllen : dl.length = embLong.length := by simp [hdl]
  refine ⟨argmin dl, ?_, ?_, ?_, ?_⟩
  · rw [← hdllen]
    exact argmin_lt_length dl hdlne
  · have hmaplen : j < (assignShortClusters dist embLong clusterLong embShrt).length := by
      simpa [assignShortClusters] using hj
    rw [List.getD_eq_getElem _ _ hmaplen]
    simp [assignShortClusters]
  · intro k hk
    have h1 := argmin_le dl k (by omega)
    have hargm : argmin dl < embLong.length := by
      rw [← hdllen]; exact argmin_lt_length dl hdlne
    rw [List.getD_eq_getElem _ _ (by omega), List.getD_eq_getElem _ _ (by omega)] at h1
    simpa [hdl] using h1
  · intro k hk hki
    have h1 := argmin_first dl k hki
    have hargm : argmin dl < embLong.length := by
      rw [← hdllen]; exact argmin_lt_length dl hdlne
    rw [List.getD_eq_getElem _ _ (by omega), List.getD_eq_getElem _ _ (by omega)] at h1
    simpa [hdl] using h1

/-- C6: with zero long candidate segments the pipeline takes the
`len(seg_long) == 0` branch: the output pairs each candidate segment, in
order, with a fresh label (so every candidate is its own singleton
cluster), the labels are pairwise distinct, and the result is identical for
arbitrary embedding, metric and clustering functions — neither embedding
extraction nor clustering is performed. -/
theorem C6_all_short_singletons {V : Type} (emb_duration : ℚ)
    (embedFn embedFn2 : Seg → V) (dist dist2 : V → V → ℚ)
    (clusterFn clusterFn2 : List V → List Nat) (seg : List Seg)
    (h : ∀ s ∈ seg, s.duration < emb_duration) :
    (simpleAssign emb_duration embedFn dist clusterFn seg).map Prod.fst = seg ∧
    ((simpleAssign emb_duration embedFn dist clusterFn seg).map Prod.snd).Nodup ∧
    simpleAssign emb_duration embedFn dist clusterFn seg =
      simpleAssign emb_duration embedFn2 dist2 clusterFn2 seg := by
  have hfl : seg.filter (fun s => decide (emb_duration ≤ s.duration)) = [] := by
    rw [List.filter_eq_nil_iff]
    intro s hs
    simpa using not_le.mpr (h s hs)
  have hbr : ∀ (eF : Seg → V) (dF : V → V → ℚ) (cF : List V → List Nat),
      simpleAssign emb_duration eF dF cF seg =
        ((List.range seg.length).zip seg).map (fun p => (p.2, p.1)) := by
    intro eF dF cF
    simp [simpleAssign, hfl]
  have hfst : (Prod.fst ∘ fun p : Nat × Seg => (p.2, p.1)) = Prod.snd := rfl
  have hsnd : (Prod.snd ∘ fun p : Nat × Seg => (p.2, p.1)) = Prod.fst := rfl
  refine ⟨?_, ?_, ?_⟩
  · rw [hbr, List.map_map, hfst,
      List.map_snd_zip (List.range seg.length) seg (by simp)]
  · rw [hbr, List.map_map, hsnd,
      List.map_fst_zip (List.range seg.length) seg (by simp)]
    exact List.nodup_range _
  · rw [hbr, hbr]

/-- Witness for C6: three short candidate segments yield exactly the three
singleton clusters `0`, `1`, `2`, one per segment, for any choice of the
embedding/metric/clustering parameters (instantiated concretely here). -/
theorem C6_all_short_singletons_witness :
    (∀ s ∈ [Seg.mk 0 0.5, ⟨1, 1.5⟩, ⟨2, 2.5⟩], s.duration < 1) ∧
    (simpleAssign 1 (fun _ => (0 : ℚ)) (fun _ _ => 0) (fun _ => [])
        [Seg.mk 0 0.5, ⟨1, 1.5⟩, ⟨2, 2.5⟩]).map Prod.fst =
      [Seg.mk 0 0.5, ⟨1, 1.5⟩, ⟨2, 2.5⟩] ∧
    ((simpleAssign 1 (fun _ => (0 : ℚ)) (fun _ _ => 0) (fun _ => [])
        [Seg.mk 0 0.5, ⟨1, 1.5⟩, ⟨2, 2.5⟩]).map Prod.snd).Nodup ∧
    (simpleAssign 1 (fun _ => (0 : ℚ)) (fun _ _ => 0) (fun _ => [])
        [Seg.mk 0 0.5, ⟨1, 1.5⟩, ⟨2, 2.5⟩]).length = 3 := by
  have h : ∀ s ∈ [Seg.mk 0 0.5, ⟨1, 1.5⟩, ⟨2, 2.5⟩], s.duration < 1 := by
    intro s hs
    simp only [List.mem_cons, List.not_mem_nil, or_false] at hs
    rcases hs with rfl | rfl | rfl <;> norm_num [Seg.duration]
  obtain ⟨h1, h2, _⟩ := C6_all_short_singletons 1 (fun _ => (0 : ℚ))
    (fun _ => (0 : ℚ)) (fun _ _ => 0) (fun _ _ => 0) (fun _ => []) (fun _ => [])
    [Seg.mk 0 0.5, ⟨1, 1.5⟩, ⟨2, 2.5⟩] h
  have hlen : (simpleAssign 1 (fun _ => (0 : ℚ)) (fun _ _ => 0) (fun _ => [])
      [Seg.mk 0 0.5, ⟨1, 1.5⟩, ⟨2, 2.5⟩]).length = 3 := by
    have := congrArg List.length h1
    simpa using this
  exact ⟨h, h1, h2, hlen⟩

/-- C7: with exactly one long candidate segment the pipeline takes the
`len(seg_long) == 1` branch: every candidate segment (long and short alike)
receives one and the same label (the constant generator), independently of
the embedding, metric and clustering functions — no clustering happens. -/
theorem C7_one_long_one_cluster {V : Type} (emb_duration : ℚ)
    (embedFn : Seg → V) (dist : V → V → ℚ) (clusterFn : List V → List Nat)
    (seg : List Seg)
    (h : (seg.filter (fun s => decide (emb_duration ≤ s.duration))).length = 1) :
    simpleAssign emb_duration embedFn dist clusterFn seg =
      seg.map (fun s => (s, 0)) := by
  simp [simpleAssign, h]

/-- Witness for C7: one long segment among three candidates collapses all
three into a single cluster labelled `0`. -/
theorem C7_one_long_one_cluster_witness :
    (([Seg.mk 0 0.5, ⟨1, 3⟩, ⟨4, 4.5⟩].filter
        (fun s => decide ((1 : ℚ) ≤ s.duration))).length = 1) ∧
    simpleAssign 1 (fun _ => (0 : ℚ)) (fun _ _ => 0) (fun _ => [])
        [Seg.mk 0 0.5, ⟨1, 3⟩, ⟨4, 4.5⟩] =
      [Seg.mk 0 0.5, ⟨1, 3⟩, ⟨4, 4.5⟩].map (fun s => (s, 0)) := by
  have h : (([Seg.mk 0 0.5, ⟨1, 3⟩, ⟨4, 4.5⟩].filter
      (fun s => decide ((1 : ℚ) ≤ s.duration))).length = 1) := by
    norm_num [List.filter, Seg.duration]
  exact ⟨h, C7_one_long_one_cluster 1 (fun _ => (0 : ℚ)) (fun _ _ => 0)
    (fun _ => []) [Seg.mk 0 0.5, ⟨1, 3⟩, ⟨4, 4.5⟩] h⟩

/-- C1 counterexample: a recording whose single speech frame is also an
overlap frame.  The set of frames to be clustered (`clean_speech_indices`)
is empty, yet the pipeline does not return an empty result: line 390 only
tests `speech_indices`, so execution proceeds to a clustering call on an
empty index set instead of the claimed immediate empty-`Annotation`
return. -/
theorem C1_empty_check_cex :
    DiscreteState.clusterTarget ⟨[true], some [true]⟩ = [] ∧
    discreteCallStep ⟨[true], some [true]⟩ = DiscreteStep.clusterCall [] ∧
    discreteCallStep ⟨[true], some [true]⟩ ≠ DiscreteStep.emptyResult := by
  refine ⟨?_, ?_, ?_⟩ <;> decide

/-- C1 amended: clustering is performed over exactly the clean-speech
frames when overlap detection is configured and over all speech frames
otherwise, and the pipeline returns an empty `Annotation` immediately if
and only if the set of *speech* frames is empty (the early-return test of
line 390 inspects `speech_indices`, not the clustered set). -/
theorem C1_cluster_frames (st : DiscreteState) :
    (discreteCallStep st = DiscreteStep.emptyResult ↔ st.speechIndices = []) ∧
    (st.speechIndices ≠ [] →
      discreteCallStep st = DiscreteStep.clusterCall st.clusterTarget) ∧
    (∀ o, st.ovlD = some o → st.clusterTarget = st.cleanIndices o) ∧
    (st.ovlD = none → st.clusterTarget = st.speechIndices) := by
  refine ⟨?_, ?_, ?_, ?_⟩
  · by_cases h : st.speechIndices = [] <;> simp [discreteCallStep, h]
  · intro h
    simp [discreteCallStep, h]
  · intro o ho
    simp [DiscreteState.clusterTarget, ho]
  · intro ho
    simp [DiscreteState.clusterTarget, ho]

/-- Witness for C1 amended: one speech frame, no overlap on it. -/
theorem C1_cluster_frames_witness :
    DiscreteState.speechIndices ⟨[true, false], some [false, false]⟩ ≠ [] ∧
    discreteCallStep ⟨[true, false], some [false, false]⟩ =
      DiscreteStep.clusterCall
        (DiscreteState.clusterTarget ⟨[true, false], some [false, false]⟩) := by
  have h : DiscreteState.speechIndices ⟨[true, false], some [false, false]⟩ ≠ [] := by
    decide
  exact ⟨h, (C1_cluster_frames ⟨[true, false], some [false, false]⟩).2.1 h⟩

/-- C2: the overlap-reassignment step does not compute `min(2, num_clusters)`
labels for every `num_clusters ≥ 1` — `np.argpartition` is called with
`kth = min(2, num_clusters)`, which equals the length of the partitioned
axis whenever `num_clusters ≤ 2` and therefore raises instead of assigning
labels (the code's own comment announces assignment to the 2 most similar
clusters, with the `min` guarding the 1-cluster case, so this is a slip in
the code).  With one noisy frame: `num_clusters = 1` raises, `num_clusters
= 2` raises, and `num_clusters = 3` succeeds with exactly
`min(2, 3) = 2` labels for the frame. -/
theorem C2_overlap_argpartition_raises :
    overlapAssignLabels 1 [[0]] = none ∧
    overlapAssignLabels 2 [[0, 1]] = none ∧
    overlapAssignLabels 3 [[0, 1, 2]] = some [[0, 1]] := by
  refine ⟨?_, ?_, ?_⟩ <;> decide

theorem memT_chained_gt (t pos : ℚ) (tl : List (ℚ × ℚ))
    (hc : ChainedFrom pos tl) (h : memT t tl) : pos < t := by
  induction tl generalizing pos with
  | nil => obtain ⟨p, hp, _⟩ := h; simp at hp
  | cons q rest ih =>
    obtain ⟨s, e⟩ := q
    obtain ⟨h1, h2, h3⟩ := hc
    obtain ⟨p, hp, hp1, hp2⟩ := h
    rcases List.mem_cons.mp hp with rfl | hmem
    · exact lt_of_le_of_lt h1 hp1
    · have := ih e h3 ⟨p, hmem, hp1, hp2⟩
      linarith

theorem memT_gapsT_gt (t lo hi : ℚ) (tl : List (ℚ × ℚ))
    (hc : ChainedFrom lo tl) (h : memT t (gapsT lo hi tl)) : lo < t := by
  induction tl generalizing lo with
  | nil =>
    obtain ⟨p, hp, hp1, hp2⟩ := h
    simp [gapsT] at hp
    subst hp
    exact hp1
  | cons q rest ih =>
    obtain ⟨s, e⟩ := q
    obtain ⟨h1, h2, h3⟩ := hc
    obtain ⟨p, hp, hp1, hp2⟩ := h
    rcases List.mem_cons.mp hp with rfl | hmem
    · exact hp1
    · have := ih e h3 ⟨p, hmem, hp1, hp2⟩
      linarith

theorem memT_gapsT_disjoint (t lo hi : ℚ) (tl : List (ℚ × ℚ))
    (hc : ChainedFrom lo tl) (hg : memT t (gapsT lo hi tl)) : ¬ memT t tl := by
  induction tl generalizing lo with
  | nil => rintro ⟨p, hp, _⟩; simp at hp
  | cons q rest ih =>
    obtain ⟨s, e⟩ := q
    obtain ⟨h1, h2, h3⟩ := hc
    obtain ⟨p, hp, hp1, hp2⟩ := hg
    rintro ⟨r, hr, hr1, hr2⟩
    rcases List.mem_cons.mp hp with rfl | hmem
    · -- t lies in the gap (lo, s), strictly left of every interval
      rcases List.mem_cons.mp hr with rfl | hrmem
      · exact absurd hr1 (not_lt.mpr (le_of_lt hp2))
      · have := memT_chained_gt t e rest h3 ⟨r, hrmem, hr1, hr2⟩
        linarith
    · -- t lies in a later gap, strictly right of (s, e)
      have het : e < t := memT_gapsT_gt t e hi rest h3 ⟨p, hmem, hp1, hp2⟩
      rcases List.mem_cons.mp hr with rfl | hrmem
      · linarith
      · exact ih e h3 ⟨p, hmem, hp1, hp2⟩ ⟨r, hrmem, hr1, hr2⟩

theorem memT_cropT (t : ℚ) (a b : List (ℚ × ℚ)) :
    memT t (cropT a b) ↔ memT t a ∧ memT t b := by
  constructor
  · rintro ⟨p, hp, hp1, hp2⟩
    rw [cropT] at hp
    obtain ⟨s, hs, hsp⟩ := List.mem_flatMap.mp hp
    obtain ⟨q, hq, hqp⟩ := List.mem_filterMap.mp hsp
    by_cases hcond : max s.1 q.1 < min s.2 q.2
    · rw [if_pos hcond] at hqp
      cases hqp
      exact ⟨⟨s, hs, (max_lt_iff.mp hp1).1, (lt_min_iff.mp hp2).1⟩,
        ⟨q, hq, (max_lt_iff.mp hp1).2, (lt_min_iff.mp hp2).2⟩⟩
    · rw [if_neg hcond] at hqp
      exact absurd hqp (by simp)
  · rintro ⟨⟨s, hs, hs1, hs2⟩, ⟨q, hq, hq1, hq2⟩⟩
    have hm1 : max s.1 q.1 < t := max_lt hs1 hq1
    have hm2 : t < min s.2 q.2 := lt_min hs2 hq2
    have hcond : max s.1 q.1 < min s.2 q.2 := lt_trans hm1 hm2
    refine ⟨(max s.1 q.1, min s.2 q.2), ?_, hm1, hm2⟩
    rw [cropT]
    exact List.mem_flatMap.mpr
      ⟨s, hs, List.mem_filterMap.mpr ⟨q, hq, by rw [if_pos hcond]⟩⟩

/-- C10: with overlap detection enabled, the clean-speech timeline (speech
cropped to the gaps of overlap within the extent) and the noisy-speech
timeline (speech cropped to overlap) have disjoint interior supports: no
time point lies inside both, so the final additive merge of the two branch
hypotheses never stacks a clean-branch label and a noisy-branch label on
the same time point.  The hypothesis is the Binarizer output invariant for
the overlap timeline: sorted, disjoint intervals starting at or after 0. -/
theorem C10_clean_noisy_disjoint (D t : ℚ) (speech overlap : List (ℚ × ℚ))
    (hc : ChainedFrom 0 overlap) :
    ¬ (memT t (cropT speech (gapsT 0 D overlap)) ∧
       memT t (cropT speech overlap)) := by
  rintro ⟨h1, h2⟩
  obtain ⟨-, hg⟩ := (memT_cropT t speech (gapsT 0 D overlap)).mp h1
  obtain ⟨-, ho⟩ := (memT_cropT t speech overlap).mp h2
  exact memT_gapsT_disjoint t 0 D overlap hc hg ho

/-- Witness for C10: speech `[(0,10)]`, overlap `[(2,3)]`, `t = 1`. -/
theorem C10_clean_noisy_disjoint_witness :
    ChainedFrom 0 [((2 : ℚ), 3)] ∧
    ¬ (memT 1 (cropT [((0 : ℚ), 10)] (gapsT 0 10 [((2 : ℚ), 3)])) ∧
       memT 1 (cropT [((0 : ℚ), 10)] [((2 : ℚ), 3)])) := by
  have hc : ChainedFrom 0 [((2 : ℚ), 3)] := by
    show (0 : ℚ) ≤ 2 ∧ (2 : ℚ) ≤ 3 ∧ True
    norm_num
  exact ⟨hc, C10_clean_noisy_disjoint 10 1 [((0 : ℚ), 10)] [((2 : ℚ), 3)] hc⟩

/-- Witness for C5: long embeddings `[0, 10]` with cluster labels `[5, 7]`
and one short embedding `9`; the nearest long embedding is `10` (index 1),
so the short segment inherits label `7`. -/
theorem C5_short_nearest_witness :
    (([0, 10] : List ℚ) ≠ []) ∧ (0 < ([9] : List ℚ).length) ∧
    (∃ i, ∃ hi : i < ([0, 10] : List ℚ).length,
      (assignShortClusters (fun a b => |a - b|) [0, 10] [5, 7] [9]).getD 0 0 =
        ([5, 7] : List Nat).getD i 0 ∧
      (∀ k, (hk : k < ([0, 10] : List ℚ).length) →
        |([0, 10] : List ℚ)[i] - ([9] : List ℚ)[0]| ≤
          |([0, 10] : List ℚ)[k] - ([9] : List ℚ)[0]|) ∧
      (∀ k, (hk : k < ([0, 10] : List ℚ).length) → k < i →
        |([0, 10] : List ℚ)[i] - ([9] : List ℚ)[0]| <
          |([0, 10] : List ℚ)[k] - ([9] : List ℚ)[0]|)) := by
  refine ⟨by simp, by simp, ?_⟩
  exact C5_short_nearest (fun a b => |a - b|) [0, 10] [5, 7] [9] (by simp) 0 (by simp)

end PyannoteSimple
